import Mathlib

/-!
Shallow embedding of the crypto issue monitor (`monitor_issues.py`) and proofs
about its claims.  Python strings are modelled as `String`/`List Char`,
machine-level details (HTTP, JSON files) as explicit data passed in, remote
responses as `Except` values (an `Except.error` input models a transport
exception raised by the HTTP library; `Except.ok (status, payload)` models a
completed HTTP response).  Timestamps are modelled as integers (minutes); the
30-minute first-run window becomes `now - 30`.  Python's `str.lower` is
modelled with `Char.toLower` (agrees on ASCII, which covers every keyword in
the source).
-/

namespace CryptoMonitor

/-! ## Basic string helpers -/

/-- Case-folding used throughout the source (`str.lower()`), as a character
list. -/
def lowerStr (s : String) : List Char := s.toList.map Char.toLower

/-- Does `hay` start with `needle`?  (Models Python's `startswith` at the
list level.) -/
def listStartsWith : List Char → List Char → Bool
  | [], _ => true
  | _ :: _, [] => false
  | n :: ns, h :: hs => n = h && listStartsWith ns hs

/-- Python's substring test `needle in hay`. -/
def listInfix (needle : List Char) : List Char → Bool
  | [] => listStartsWith needle []
  | c :: t => listStartsWith needle (c :: t) || listInfix needle t

/-- Drop `p` from the front of `s` when `s` starts with `p`
(the literal-matching step of the regex models). -/
def dropPfx : List Char → List Char → Option (List Char)
  | [], s => some s
  | _ :: _, [] => none
  | p :: ps, c :: cs => if p = c then dropPfx ps cs else none

/-! ## Classifier (from `detect_priority` and the category chain in
`create_issue_in_target_repo`) -/

/-- The combined lowercased text `f"{title} {body}"` both classifiers scan. -/
def contentOf (title body : String) : List Char :=
  lowerStr title ++ [' '] ++ lowerStr body

/-- `any(word in content for word in kws)` from the source. -/
def anyKw (kws : List String) (content : List Char) : Bool :=
  kws.any fun k => listInfix k.toList content

def criticalKws : List String :=
  ["critical", "urgent", "emergency", "security breach", "exploit", "hack",
   "funds at risk", "total loss"]

def urgentKws : List String :=
  ["urgent", "asap", "immediately", "cant access", "locked out", "lost funds"]

def highKws : List String :=
  ["high", "important", "stuck", "frozen", "missing balance"]

def lowKws : List String :=
  ["minor", "low", "suggestion", "enhancement", "feature request"]

/-- `detect_priority` (monitor_issues.py lines 136-151), as a function of the
title and the raw body text (the source reads
`(issue.get('body', '') or '').lower()`). -/
def detect_priority (title body : String) : String :=
  let content := contentOf title body
  if anyKw criticalKws content then "priority-critical"
  else if anyKw urgentKws content then "priority-urgent"
  else if anyKw highKws content then "priority-high"
  else if anyKw lowKws content then "priority-low"
  else "priority-medium"

def bugKws : List String := ["bug", "error", "broken", "crash", "failed"]

def securityKws : List String := ["security", "vulnerability", "exploit", "hack"]

def walletKws : List String :=
  ["wallet", "balance", "account", "private key", "seed phrase", "coinbase",
   "metamask", "ledger", "trezor"]

def transactionKws : List String := ["transaction", "swap", "transfer", "tx"]

def contractKws : List String := ["contract", "smart contract", "solidity"]

def gasFeeKws : List String := ["gas", "fee"]

def helpKws : List String := ["help", "question", "how to"]

/-- The category if/elif chain from `create_issue_in_target_repo`
(monitor_issues.py lines 323-337), as a pure function of the title and the
(already defaulted) body text. -/
def classifyCategory (title body : String) : String :=
  let content := contentOf title body
  if anyKw bugKws content then "bug"
  else if anyKw securityKws content then "security"
  else if anyKw walletKws content then "wallet"
  else if anyKw transactionKws content then "transaction"
  else if anyKw contractKws content then "contract"
  else if anyKw gasFeeKws content then "gas-fee"
  else if anyKw helpKws content then "help"
  else "general"

/-- Modelled from the spec: the category taxonomy as an explicit ordered
`(tag, keyword-set)` table, first match wins, default `general`
(spec section 4.3).  Used only to compare against `classifyCategory`. -/
def classifySpecTable : List (String × List String) :=
  [("bug", bugKws), ("security", securityKws), ("wallet", walletKws),
   ("transaction", transactionKws), ("contract", contractKws),
   ("gas-fee", gasFeeKws), ("help", helpKws)]

/-- Modelled from the spec: first-match-wins evaluation of the ordered
category table. -/
def classifySpec (title body : String) : String :=
  ((classifySpecTable.find? fun p => anyKw p.2 (contentOf title body)).map
    Prod.fst).getD "general"

/-! ## Similarity (`similarity`, monitor_issues.py lines 153-155)

`difflib.SequenceMatcher(None, a, b).ratio()` with no junk and short inputs
(titles are far below the 200-character autojunk threshold, so no element is
ever junk).  `runLenF` is the dynamic-programming quantity difflib keeps in
`j2len`: the length of the matching diagonal run ending at `(i, j)`, clipped
at the window start `(alo, blo)`.  `find_longest_match` scans `i` then `j`
ascending and keeps the first strictly larger run, exactly like difflib's
update `if k > bestsize`.  `mbTotalF` is the total size of all matching
blocks (the divide-and-conquer of `get_matching_blocks`), and `ratioQ` is
`2*M/(len(a)+len(b))` as a rational (Python's float division, modelled
exactly; `_calculate_ratio` returns `1.0` when both inputs are empty). -/

/-- Length of the matching diagonal run ending at `(i, j)`, clipped at the
window start; the fuel argument is instantiated with `i + 1` so the
recursion is structural. -/
def runLenF (a b : List Char) (alo blo : Nat) : Nat → Nat → Nat → Nat
  | 0, _, _ => 0
  | fuel + 1, i, j =>
    match a.get? i, b.get? j with
    | some x, some y =>
      if x = y then
        (if alo < i ∧ blo < j then runLenF a b alo blo fuel (i - 1) (j - 1)
         else 0) + 1
      else 0
    | _, _ => 0

def runLen (a b : List Char) (alo blo i j : Nat) : Nat :=
  runLenF a b alo blo (i + 1) i j

/-- One inner step of `find_longest_match`'s scan: consider position
`(i, j)` and keep the new run exactly when it is strictly longer
(difflib's `if k > bestsize`). -/
def flmStep (a b : List Char) (alo blo i : Nat) (best : Nat × Nat × Nat)
    (j : Nat) : Nat × Nat × Nat :=
  let k := runLen a b alo blo i j
  if best.2.2 < k then (i + 1 - k, j + 1 - k, k) else best

/-- One outer step: scan all of row `i`. -/
def flmRow (a b : List Char) (alo blo bhi : Nat) (best : Nat × Nat × Nat)
    (i : Nat) : Nat × Nat × Nat :=
  (List.range' blo (bhi - blo)).foldl (flmStep a b alo blo i) best

/-- `find_longest_match(alo, ahi, blo, bhi)`: the first (scanning `i` then
`j` ascending) maximal matching run, returned as `(besti, bestj, bestsize)`;
`(alo, blo, 0)` when the window has no match. -/
def find_longest_match (a b : List Char) (alo ahi blo bhi : Nat) :
    Nat × Nat × Nat :=
  (List.range' alo (ahi - alo)).foldl (flmRow a b alo blo bhi) (alo, blo, 0)

/-- Total size of the matching blocks of the window (the sum `ratio` takes
over `get_matching_blocks`), with explicit fuel. -/
def mbTotalF (a b : List Char) : Nat → Nat → Nat → Nat → Nat → Nat
  | 0, _, _, _, _ => 0
  | fuel + 1, alo, ahi, blo, bhi =>
    let m := find_longest_match a b alo ahi blo bhi
    if m.2.2 = 0 then 0
    else
      mbTotalF a b fuel alo m.1 blo m.2.1 + m.2.2 +
        mbTotalF a b fuel (m.1 + m.2.2) ahi (m.2.1 + m.2.2) bhi

def mbTotal (a b : List Char) : Nat :=
  mbTotalF a b (a.length + b.length + 1) 0 a.length 0 b.length

/-- Verification invariant for `find_longest_match`: the best triple points
at a genuine matching block inside the window. -/
def FlmInv (a b : List Char) (ahi bhi alo blo : Nat)
    (best : Nat × Nat × Nat) : Prop :=
  alo ≤ best.1 ∧ blo ≤ best.2.1 ∧ best.1 + best.2.2 ≤ ahi ∧
    best.2.1 + best.2.2 ≤ bhi ∧
    ∀ t, t < best.2.2 →
      ∃ c, a.get? (best.1 + t) = some c ∧ b.get? (best.2.1 + t) = some c

/-- `SequenceMatcher(None, a, b).ratio()` as an exact rational. -/
def ratioQ (a b : List Char) : ℚ :=
  if a.length + b.length = 0 then 1
  else (2 * mbTotal a b : ℚ) / (a.length + b.length : ℚ)

/-- `similarity(text1, text2)` (monitor_issues.py lines 153-155):
`SequenceMatcher(None, text1.lower(), text2.lower()).ratio()`. -/
def similarity (text1 text2 : String) : ℚ :=
  ratioQ (lowerStr text1) (lowerStr text2)

/-! ## Owner resolution chain (`find_real_owner` and its helpers,
monitor_issues.py lines 189-243)

The two regular expressions are modelled directly:
`@([a-zA-Z0-9_-]+)` (mentions) and
`https://github\.com/[^/]+/[^/]+/issues/\d+` (issue links), with
`re.findall`'s leftmost non-overlapping scan, plus `re.search` of
`github\.com/([^/]+)/([^/]+)/issues/(\d+)` used by
`get_original_issue_owner`.  Since `[^/]+` can never consume a `/`, the
backtracking regexes are deterministic and the scanners below are exact. -/

/-- The regex character class `[a-zA-Z0-9_-]` (ASCII, like Python `re`). -/
def isWordChar (c : Char) : Bool :=
  c.isAlpha || c.isDigit || c = '_' || c = '-'

/-- `re.findall(r'@([a-zA-Z0-9_-]+)', body)`: every group, leftmost first,
non-overlapping. -/
def findMentionsF : Nat → List Char → List (List Char)
  | 0, _ => []
  | _, [] => []
  | fuel + 1, c :: rest =>
    if c = '@' then
      let m := rest.takeWhile isWordChar
      if m.isEmpty then findMentionsF fuel rest
      else m :: findMentionsF fuel (rest.drop m.length)
    else findMentionsF fuel rest

def findMentions (s : String) : List (List Char) :=
  findMentionsF s.toList.length s.toList

/-- One attempt to match `https://github\.com/[^/]+/[^/]+/issues/\d+` at the
head of `s`; on success returns the matched text and the remainder of `s`. -/
def tryLink (s : List Char) : Option (List Char × List Char) :=
  match dropPfx "https://github.com/".toList s with
  | none => none
  | some r1 =>
    let seg1 := r1.takeWhile (· ≠ '/')
    if seg1.isEmpty then none
    else
      match dropPfx (seg1 ++ ['/']) r1 with
      | none => none
      | some r2 =>
        let seg2 := r2.takeWhile (· ≠ '/')
        if seg2.isEmpty then none
        else
          match dropPfx (seg2 ++ "/issues/".toList) r2 with
          | none => none
          | some r3 =>
            let ds := r3.takeWhile Char.isDigit
            if ds.isEmpty then none
            else
              some ("https://github.com/".toList ++ seg1 ++ ['/'] ++ seg2 ++
                      "/issues/".toList ++ ds,
                    r3.drop ds.length)

/-- `re.findall(r'https://github\.com/[^/]+/[^/]+/issues/\d+', body)`. -/
def findLinksF : Nat → List Char → List (List Char)
  | 0, _ => []
  | _, [] => []
  | fuel + 1, c :: rest =>
    match tryLink (c :: rest) with
    | some (m, rem) => m :: findLinksF fuel rem
    | none => findLinksF fuel rest

def findLinks (s : String) : List (List Char) :=
  findLinksF s.toList.length s.toList

/-- One attempt to match `github\.com/([^/]+)/([^/]+)/issues/(\d+)` at the
head of `s`, returning the three groups. -/
def tryIssueRef (s : List Char) : Option (List Char × List Char × List Char) :=
  match dropPfx "github.com/".toList s with
  | none => none
  | some r1 =>
    let seg1 := r1.takeWhile (· ≠ '/')
    if seg1.isEmpty then none
    else
      match dropPfx (seg1 ++ ['/']) r1 with
      | none => none
      | some r2 =>
        let seg2 := r2.takeWhile (· ≠ '/')
        if seg2.isEmpty then none
        else
          match dropPfx (seg2 ++ "/issues/".toList) r2 with
          | none => none
          | some r3 =>
            let ds := r3.takeWhile Char.isDigit
            if ds.isEmpty then none else some (seg1, seg2, ds)

/-- `re.search` of the same pattern: try each start position, leftmost
match wins. -/
def searchIssueRefF : Nat → List Char → Option (List Char × List Char × List Char)
  | 0, _ => none
  | _, [] => none
  | fuel + 1, c :: rest =>
    match tryIssueRef (c :: rest) with
    | some g => some g
    | none => searchIssueRefF fuel rest

def searchIssueRef (s : List Char) : Option (List Char × List Char × List Char) :=
  searchIssueRefF s.length s

/-- A source issue as consumed from the platform API (the fields the monitor
reads). -/
structure Issue where
  number : Nat
  title : String
  body : Option String
  user : String
  htmlUrl : String
  createdAt : String
  isPull : Bool
deriving DecidableEq, Repr

/-- `issue.get('body', '') or ''` — the raw body text with `None` mapped to
the empty string. -/
def rawBody (i : Issue) : String := i.body.getD ""

/-- The remote fetch in `get_original_issue_owner`: given the three parsed
groups (owner, repo, issue number), the oracle returns either a transport
error or a completed response carrying the linked issue's author login. -/
def OwnerFetch : Type :=
  List Char → List Char → List Char → Except String (Nat × String)

/-- `get_original_issue_owner` (monitor_issues.py lines 203-224): parse the
url, fetch, and return the author on a 200 response; any transport error or
other status degrades to `none` (the broad `except` plus the explicit
status check). -/
def get_original_issue_owner (fetch : OwnerFetch) (url : List Char) :
    Option String :=
  match searchIssueRef url with
  | none => none
  | some g =>
    match fetch g.1 g.2.1 g.2.2 with
    | Except.ok (200, login) => some login
    | _ => none

/-- `find_real_issue_owner` (monitor_issues.py lines 189-201): the first
`@mention`, if any. -/
def find_real_issue_owner (body : String) : Option String :=
  match findMentions body with
  | m :: _ => some (String.mk m)
  | [] => none

/-- `find_real_owner` (monitor_issues.py lines 226-243): first link, then
first mention, then the reporting author. -/
def find_real_owner (fetch : OwnerFetch) (issue : Issue) : String :=
  let body := rawBody issue
  match findLinks body with
  | l :: _ =>
    match get_original_issue_owner fetch l with
    | some o => o
    | none =>
      match find_real_issue_owner body with
      | some o => o
      | none => issue.user
  | [] =>
    match find_real_issue_owner body with
    | some o => o
    | none => issue.user

/-! ## API client operations (response-passing embedding)

Each operation is a pure function of the HTTP outcome it would observe:
`Except.error e` models the HTTP library raising a transport exception
(timeout, connection error), `Except.ok (status, payload)` a completed
response.  An operation whose Lean codomain is *not* `Except` catches every
failure by construction; `check_rate_limit` keeps codomain `Except` because
the source wraps it in no `try`, so a raised transport exception escapes. -/

/-- An issue open in the target repository, as returned when listing for the
duplicate check. -/
structure ExistIssue where
  number : Nat
  title : String
  htmlUrl : String
deriving DecidableEq, Repr

/-- `check_rate_limit` (monitor_issues.py lines 89-98): no `try`/`except`
around `requests.get`, so a transport failure propagates; a non-200 status
returns `0`. -/
def check_rate_limit (resp : Except String (Nat × Nat)) : Except String Nat :=
  match resp with
  | Except.error e => Except.error e
  | Except.ok (status, remaining) =>
    Except.ok (if status = 200 then remaining else 0)

/-- `get_recent_issues` (monitor_issues.py lines 100-121): 200 yields the
issues minus pull requests; any other status or a transport exception yields
`[]`. -/
def get_recent_issues (resp : Except String (Nat × List Issue)) : List Issue :=
  match resp with
  | Except.ok (200, issues) => issues.filter fun i => !i.isPull
  | _ => []

/-- The tail of `create_issue_in_target_repo` (monitor_issues.py lines
353-364): 201 yields the created issue number, any other status or a
transport exception yields `none`. -/
def postIssueResult (resp : Except String (Nat × Nat)) : Option Nat :=
  match resp with
  | Except.ok (201, n) => some n
  | _ => none

/-- The tail of `mention_real_owner_in_our_issue` (monitor_issues.py lines
262-274): 201 yields `true`, anything else `false`. -/
def postCommentResult (resp : Except String Nat) : Bool :=
  match resp with
  | Except.ok 201 => true
  | _ => false

/-! ## Duplicate check, assignee lookup and mirrored-issue payload -/

/-- A duplicate candidate as collected by `check_for_duplicates`. -/
structure DupMatch where
  number : Nat
  title : String
  url : String
  sim : ℚ
deriving DecidableEq, Repr

/-- `check_for_duplicates` (monitor_issues.py lines 157-182): on a 200
listing, keep the open target issues whose title similarity is ≥ 0.7; any
failure degrades to `[]`. -/
def check_for_duplicates (resp : Except String (Nat × List ExistIssue))
    (issueTitle : String) : List DupMatch :=
  match resp with
  | Except.ok (200, existing) =>
    (existing.filter fun e => (7 : ℚ) / 10 ≤ similarity issueTitle e.title).map
      fun e => ⟨e.number, e.title, e.htmlUrl, similarity issueTitle e.title⟩
  | _ => []

/-- `get_assignee_for_category` (monitor_issues.py lines 184-187): the
category's handle list, else the `general` list, else `[]`; first handle or
`None`. -/
def get_assignee_for_category (table : List (String × List String))
    (category : String) : Option String :=
  let assignees :=
    match List.lookup category table with
    | some l => l
    | none => (List.lookup "general" table).getD []
  assignees.head?

/-- `original_body = issue.get('body', '') or '*No description provided*'`. -/
def bodyOrPlaceholder (i : Issue) : String :=
  match i.body with
  | none => "*No description provided*"
  | some b => if b = "" then "*No description provided*" else b

/-- The mirrored-issue request body assembled by
`create_issue_in_target_repo` (monitor_issues.py lines 276-351).  The
composed markdown body string is not modelled (no claim depends on its
text); title, labels and assignees are modelled exactly. -/
structure IssuePayload where
  title : String
  labels : List String
  assignees : Option (List String)
deriving DecidableEq, Repr

/-- `repo.split("/")[0]` for the `source:` label. -/
def orgOf (repo : String) : String :=
  String.mk (repo.toList.takeWhile (· ≠ '/'))

/-- The `assignees` field of the payload
(`if assignee and assignee.startswith('@'): payload['assignees'] =
[assignee[1:]]`): only a handle starting with `'@'` is used, stripped of the
`'@'`.  (Python also requires the handle truthy; the empty string fails
`startswith('@')` anyway, so the one test is equivalent.) -/
def payloadAssignees (table : List (String × List String))
    (category : String) : Option (List String) :=
  match get_assignee_for_category table category with
  | some a =>
    if listStartsWith ['@'] a.toList then some [String.mk (a.toList.drop 1)]
    else none
  | none => none

/-- The payload of `create_issue_in_target_repo`: labels
`['auto-detected', priority, category, 'source:<org>']` plus
`possible-duplicate` when duplicates were found; assignees per
`payloadAssignees`. -/
def create_payload (table : List (String × List String)) (issue : Issue)
    (sourceRepo : String) (dups : List DupMatch) : IssuePayload :=
  let priorityLabel := detect_priority issue.title (rawBody issue)
  let category := classifyCategory issue.title (bodyOrPlaceholder issue)
  let labels :=
    ["auto-detected", priorityLabel] ++ [category, "source:" ++ orgOf sourceRepo] ++
      (if dups.isEmpty then [] else ["possible-duplicate"])
  { title := "[AUTO] " ++ issue.title
    labels := labels
    assignees := payloadAssignees table category }

/-! ## Checkpoint store (`get_last_check_time` / `save_last_check_time`,
monitor_issues.py lines 64-87)

Timestamps are integers (minutes); `timedelta(minutes=30)` becomes `- 30`.
The checkpoint file is in one of three observable states: absent, present
but unreadable (open/`json.load` raises, swallowed by the bare `except`),
or parsed JSON whose `last_check_time` key holds either a timestamp or
nothing (`dict.get` returns Python `None` for a missing or null key). -/

inductive CkptFile
  | missing
  | unreadable
  | parsed (lastCheckTime : Option Int)
deriving DecidableEq, Repr

/-- `get_last_check_time`: the parsed key value is returned as-is (even when
it is Python `None`); a missing or unreadable file falls back to 30 minutes
before now. -/
def get_last_check_time (file : CkptFile) (now : Int) : Option Int :=
  match file with
  | CkptFile.parsed v => v
  | _ => some (now - 30)

/-- `save_last_check_time`: overwrite the file with the current time. -/
def save_last_check_time (now : Int) : CkptFile :=
  CkptFile.parsed (some now)

/-! ## The monitoring pass (`monitor_repositories`,
monitor_issues.py lines 366-431) -/

/-- The monitor's configuration (`config.json` already loaded). -/
structure Config where
  monitoredRepos : List String
  keywords : List String
  teamAssignments : List (String × List String)

/-- The durable local state: checkpoint file plus processed-set file. -/
structure Files where
  ckpt : CkptFile
  processedFile : List String
deriving DecidableEq, Repr

/-- Everything the remote world answers during one pass, plus the clock.
`rateResp` feeds `check_rate_limit`, `issuesResp repo since` feeds
`get_recent_issues`, `targetListResp` the duplicate check, `createResp`
the mirrored-issue POST and `commentResp` the escalation-comment POST. -/
structure World where
  rateResp : Except String (Nat × Nat)
  issuesResp : String → Option Int → Except String (Nat × List Issue)
  targetListResp : Except String (Nat × List ExistIssue)
  createResp : IssuePayload → Except String (Nat × Nat)
  commentResp : Nat → Except String Nat
  ownerFetch : OwnerFetch
  now : Int

/-- `matches_criteria` (monitor_issues.py lines 123-134). -/
def matches_criteria (cfg : Config) (i : Issue) : Bool :=
  cfg.keywords.any fun kw => listInfix (lowerStr kw) (contentOf i.title (rawBody i))

/-- `create_issue_in_target_repo` (monitor_issues.py lines 276-364): resolve
the owner, check duplicates, build the payload, POST it; `none` on any
failed POST. -/
def create_issue_in_target_repo (w : World) (cfg : Config) (issue : Issue)
    (sourceRepo : String) : Option (Nat × String) :=
  let realOwner := find_real_owner w.ownerFetch issue
  let dups := check_for_duplicates w.targetListResp issue.title
  let payload := create_payload cfg.teamAssignments issue sourceRepo dups
  match postIssueResult (w.createResp payload) with
  | some n => some (n, realOwner)
  | none => none

/-- Observable side effects of a pass, in chronological order. -/
inductive Ev
  | fetch (repo : String)
  | createOk (issueId : String)
  | createFail (issueId : String)
  | comment (issueNumber : Nat)
  | writeProcessed
  | writeCheckpoint (t : Int)
deriving DecidableEq, Repr

/-- In-memory state while a pass runs. -/
structure PassSt where
  processed : List String
  events : List Ev
deriving DecidableEq, Repr

/-- `f"{repo}#{issue['number']}"`. -/
def issueKey (repo : String) (i : Issue) : String :=
  repo ++ "#" ++ toString i.number

/-- The body of the inner `for issue in issues` loop (monitor_issues.py
lines 395-418): skip already-processed ids; a matching issue is mirrored
and recorded as processed only when creation succeeded (with the escalation
comment posted after); a non-matching issue is recorded as processed
immediately. -/
def evalIssue (w : World) (cfg : Config) (repo : String) (st : PassSt)
    (issue : Issue) : PassSt :=
  let id := issueKey repo issue
  if id ∈ st.processed then st
  else if matches_criteria cfg issue then
    match create_issue_in_target_repo w cfg issue repo with
    | some (n, _owner) =>
      { processed := id :: st.processed
        events := st.events ++ [Ev.createOk id, Ev.comment n] }
    | none => { st with events := st.events ++ [Ev.createFail id] }
  else { st with processed := id :: st.processed }

def processIssues (w : World) (cfg : Config) (repo : String) (st : PassSt)
    (issues : List Issue) : PassSt :=
  issues.foldl (evalIssue w cfg repo) st

/-- One iteration of the outer `for repo in self.monitored_repos` loop. -/
def processRepo (w : World) (cfg : Config) (since : Option Int) (st : PassSt)
    (repo : String) : PassSt :=
  let issues := get_recent_issues (w.issuesResp repo since)
  processIssues w cfg repo { st with events := st.events ++ [Ev.fetch repo] }
    issues

/-- `monitor_repositories` (monitor_issues.py lines 366-431): rate gate,
checkpoint read, per-repo incremental fetch and evaluation, then the two
durable writes.  The `Except` codomain records that a transport exception
raised inside `check_rate_limit` escapes the pass (nothing else in the loop
can raise). -/
def monitor_repositories (w : World) (cfg : Config) (files : Files) :
    Except String (Files × List Ev) :=
  match check_rate_limit w.rateResp with
  | Except.error e => Except.error e
  | Except.ok remaining =>
    if remaining < 100 then Except.ok (files, [])
    else
      let since := get_last_check_time files.ckpt w.now
      let st := cfg.monitoredRepos.foldl (processRepo w cfg since)
        ⟨files.processedFile, []⟩
      Except.ok ({ ckpt := save_last_check_time w.now,
                   processedFile := st.processed },
        st.events ++ [Ev.writeProcessed, Ev.writeCheckpoint w.now])

/-- Is this event one of the two durable-state writes? -/
def isWriteEv : Ev → Bool
  | Ev.writeProcessed => true
  | Ev.writeCheckpoint _ => true
  | _ => false

/-- A matching issue of the C1 scenario (`bug` keyword in the title). -/
def issueA : Issue :=
  ⟨1, "bug one", none, "u1", "h1", "t1", false⟩

/-- A non-matching issue of the C1 scenario. -/
def issueB : Issue :=
  ⟨2, "hello", none, "u2", "h2", "t2", false⟩

def cfgC1 : Config := ⟨["r/a"], ["bug"], []⟩

/-- A world whose mirrored-issue POST always fails with a transport error
while everything else works. -/
def wC1 : World :=
  { rateResp := Except.ok (200, 5000)
    issuesResp := fun _ _ => Except.ok (200, [issueA, issueB])
    targetListResp := Except.ok (200, [])
    createResp := fun _ => Except.error "connection reset"
    commentResp := fun _ => Except.ok 201
    ownerFetch := fun _ _ _ => Except.error "unused"
    now := 1000 }

def filesC1 : Files := ⟨CkptFile.missing, []⟩

def cfgC4 : Config := ⟨[], [], []⟩

/-- A world whose rate-limit response reports only 50 remaining calls. -/
def wC4 : World :=
  { rateResp := Except.ok (200, 50)
    issuesResp := fun _ _ => Except.ok (200, [])
    targetListResp := Except.ok (200, [])
    createResp := fun _ => Except.ok (201, 1)
    commentResp := fun _ => Except.ok 201
    ownerFetch := fun _ _ _ => Except.ok (200, "x")
    now := 500 }

/-- The same world with ample rate budget. -/
def wC4ok : World :=
  { wC4 with rateResp := Except.ok (200, 5000) }

def filesC4 : Files := ⟨CkptFile.parsed (some 400), ["a#1"]⟩

/-- The end-to-end scenario issue of the spec: title
"Wallet funds missing — urgent", body
"@alice reported this, see https://host/org/repo/issues/42". -/
def issueC2 : Issue :=
  { number := 12
    title := "Wallet funds missing — urgent"
    body := some "@alice reported this, see https://host/org/repo/issues/42"
    user := "bob"
    htmlUrl := "https://github.com/org/src-repo/issues/12"
    createdAt := "2026-01-01T00:00:00Z"
    isPull := false }

/-! ## Theorems -/

/-- C8, counterexample: a checkpoint file that exists and parses but lacks
the `last_check_time` key makes `get_last_check_time` return Python `None`
(modelled `none`) — neither a saved timestamp nor the 30-minutes-before-now
default, refuting "it never returns any other value (such as a
missing/None timestamp) for any state of the checkpoint file". -/
theorem c8_counterexample :
    get_last_check_time (CkptFile.parsed none) 100 = none ∧
    (none : Option Int) ≠ some (100 - 30) := by
  exact ⟨rfl, by decide⟩

/-- C8, amended: checkpoint load returns the last-saved timestamp whenever
one was saved, and returns a timestamp exactly 30 minutes before now when
the file is missing or unreadable; but when the file exists and parses
without the key (or with a null value) it returns `None`. -/
theorem c8_checkpoint_load (now : Int) :
    (∀ t : Int, get_last_check_time (save_last_check_time t) now = some t) ∧
    get_last_check_time CkptFile.missing now = some (now - 30) ∧
    get_last_check_time CkptFile.unreadable now = some (now - 30) ∧
    get_last_check_time (CkptFile.parsed none) now = none := by
  exact ⟨fun t => rfl, rfl, rfl, rfl⟩

/-- C3, counterexample: `check_rate_limit` wraps its HTTP call in no
`try`/`except`, so a transport failure propagates out of the operation as an
exception instead of degrading — refuting "every API-client operation …
catches any transport failure … locally". -/
theorem c3_counterexample :
    check_rate_limit (Except.error "ConnectionError") =
      Except.error "ConnectionError" := rfl

/-- C3, amended: listing issues, creating an issue and creating a comment
catch any transport failure or non-2xx status and degrade to `[]`, `none`
and `false` respectively; reading the rate-limit quota degrades a non-200
response to `0`, but a transport failure propagates out of it as an
exception. -/
theorem c3_api_failure_handling :
    (∀ e, get_recent_issues (Except.error e) = []) ∧
    (∀ s l, s ≠ 200 → get_recent_issues (Except.ok (s, l)) = []) ∧
    (∀ e, postIssueResult (Except.error e) = none) ∧
    (∀ s n, s ≠ 201 → postIssueResult (Except.ok (s, n)) = none) ∧
    (∀ e, postCommentResult (Except.error e) = false) ∧
    (∀ s, s ≠ 201 → postCommentResult (Except.ok s) = false) ∧
    (∀ s r, check_rate_limit (Except.ok (s, r)) =
      Except.ok (if s = 200 then r else 0)) ∧
    (∀ e, check_rate_limit (Except.error e) = Except.error e) := by
  refine ⟨fun e => rfl, ?_, fun e => rfl, ?_, fun e => rfl, ?_,
    fun s r => rfl, fun e => rfl⟩
  · intro s l h
    unfold get_recent_issues
    split
    · next heq =>
        rw [Except.ok.injEq, Prod.mk.injEq] at heq
        exact absurd heq.1 h
    · rfl
  · intro s n h
    unfold postIssueResult
    split
    · next heq =>
        rw [Except.ok.injEq, Prod.mk.injEq] at heq
        exact absurd heq.1 h
    · rfl
  · intro s h
    unfold postCommentResult
    split
    · next heq =>
        rw [Except.ok.injEq] at heq
        exact absurd heq h
    · rfl

/-- C3 witness: the degradation cases of `c3_api_failure_handling` at
concrete non-2xx responses. -/
theorem c3_api_failure_handling_witness :
    get_recent_issues (Except.ok (500, [])) = [] ∧
    postIssueResult (Except.ok (500, 1)) = none ∧
    postCommentResult (Except.ok 500) = false := by
  exact ⟨c3_api_failure_handling.2.1 500 [] (by decide),
    c3_api_failure_handling.2.2.2.1 500 1 (by decide),
    c3_api_failure_handling.2.2.2.2.2.1 500 (by decide)⟩

/-- C10: a mirrored issue carries an assignee exactly when the handle looked
up for its category (falling back to the `general` entry) starts with `'@'`;
the `'@'` is stripped; a handle without a leading `'@'` — or an empty handle
list, which makes the lookup yield nothing — produces no assignee at all. -/
theorem c10_assignee_rule (table : List (String × List String)) (issue : Issue)
    (sourceRepo : String) (dups : List DupMatch) :
    (∀ a,
      get_assignee_for_category table
          (classifyCategory issue.title (bodyOrPlaceholder issue)) = some a →
      listStartsWith ['@'] a.toList = true →
      (create_payload table issue sourceRepo dups).assignees =
        some [String.mk (a.toList.drop 1)]) ∧
    (∀ a,
      get_assignee_for_category table
          (classifyCategory issue.title (bodyOrPlaceholder issue)) = some a →
      listStartsWith ['@'] a.toList = false →
      (create_payload table issue sourceRepo dups).assignees = none) ∧
    (get_assignee_for_category table
          (classifyCategory issue.title (bodyOrPlaceholder issue)) = none →
      (create_payload table issue sourceRepo dups).assignees = none) := by
  refine ⟨?_, ?_, ?_⟩
  · intro a ha hat
    simp only [create_payload, payloadAssignees, ha, hat, if_true]
  · intro a ha hat
    simp only [String.toList] at hat
    simp [create_payload, payloadAssignees, ha, hat]
  · intro ha
    simp only [create_payload, payloadAssignees, ha]

/-- C10 witness: with the single configured entry
`general ↦ ["@smaosmaosmao"]` an unclassifiable issue gets assignee
`smaosmaosmao` (the `'@'` stripped). -/
theorem c10_assignee_rule_witness :
    (create_payload [("general", ["@smaosmaosmao"])]
        { number := 1, title := "hello there", body := none, user := "u",
          htmlUrl := "h", createdAt := "t", isPull := false } "o/r" []).assignees =
      some [String.mk ("@smaosmaosmao".toList.drop 1)] := by
  exact
    (c10_assignee_rule [("general", ["@smaosmaosmao"])]
        { number := 1, title := "hello there", body := none, user := "u",
          htmlUrl := "h", createdAt := "t", isPull := false } "o/r" []).1
      "@smaosmaosmao" (by decide) (by decide)

/-- C7: the category classifier is a pure function of `(title, body)` that
agrees with first-match-wins evaluation of the ordered table
`bug, security, wallet, transaction, contract, gas-fee, help` with default
`general`; in particular any input containing a security keyword and no bug
keyword classifies as `security`. -/
theorem c7_classifier_precedence :
    (∀ title body, classifyCategory title body = classifySpec title body) ∧
    (∀ title body, anyKw securityKws (contentOf title body) = true →
      anyKw bugKws (contentOf title body) = false →
      classifyCategory title body = "security") := by
  constructor
  · intro t b
    unfold classifyCategory classifySpec classifySpecTable
    simp only [List.find?]
    split_ifs <;> simp_all
  · intro t b hs hb
    unfold classifyCategory
    simp [hs, hb]

/-- C7 witness: an input with a security keyword and no bug keyword is
classified `security` via `c7_classifier_precedence`. -/
theorem c7_classifier_precedence_witness :
    classifyCategory "vulnerability found" "" = "security" := by
  exact c7_classifier_precedence.2 "vulnerability found" "" (by decide)
    (by decide)

/-- C2, counterexample: the scenario issue's content contains `urgent`, which
is also in the *critical* keyword list checked first, so `detect_priority`
returns `priority-critical`, not `priority-urgent`, and the mirrored labels
are `[auto-detected, priority-critical, wallet, source:org]` — refuting
"priority `priority-urgent`" and "labels include `priority-urgent`". -/
theorem c2_counterexample :
    detect_priority issueC2.title (rawBody issueC2) = "priority-critical" ∧
    (create_payload [] issueC2 "org/repo" []).labels =
      ["auto-detected", "priority-critical", "wallet", "source:org"] ∧
    "priority-urgent" ∉ (create_payload [] issueC2 "org/repo" []).labels := by
  refine ⟨by decide, by decide, by decide⟩

/-- C2, amended: for the scenario issue, classification yields category
`wallet` and priority `priority-critical` (the word `urgent` is matched by
the critical keyword list, which has precedence), and the mirrored issue's
labels include `auto-detected`, `priority-critical`, `wallet` and
`source:org`, whatever the assignment table and duplicate-check outcome. -/
theorem c2_scenario_classification (table : List (String × List String))
    (dups : List DupMatch) :
    classifyCategory issueC2.title (bodyOrPlaceholder issueC2) = "wallet" ∧
    detect_priority issueC2.title (rawBody issueC2) = "priority-critical" ∧
    "auto-detected" ∈ (create_payload table issueC2 "org/repo" dups).labels ∧
    "priority-critical" ∈ (create_payload table issueC2 "org/repo" dups).labels ∧
    "wallet" ∈ (create_payload table issueC2 "org/repo" dups).labels ∧
    "source:org" ∈ (create_payload table issueC2 "org/repo" dups).labels := by
  refine ⟨by decide, by decide, ?_, ?_, ?_, ?_⟩ <;>
      simp only [create_payload, List.mem_append, List.mem_cons,
        List.mem_singleton]
  · exact Or.inl (Or.inl (Or.inl (by decide)))
  · exact Or.inl (Or.inl (Or.inr (Or.inl (by decide))))
  · exact Or.inl (Or.inr (Or.inl (by decide)))
  · exact Or.inl (Or.inr (Or.inr (Or.inl (by decide))))

/-! ### Similarity lemmas -/

/-- Generic invariant preservation along a left fold. -/
lemma foldl_inv {α β : Type} (P : β → Prop) (f : β → α → β) :
    ∀ (l : List α) (b : β), P b → (∀ x ∈ l, ∀ y, P y → P (f y x)) →
      P (l.foldl f b)
  | [], _, hb, _ => hb
  | x :: xs, b, hb, hstep =>
    foldl_inv P f xs (f b x) (hstep x (List.mem_cons_self x xs) b hb)
      fun z hz y hy => hstep z (List.mem_cons_of_mem x hz) y hy

lemma runLenF_le_left (a b : List Char) (alo blo : Nat) :
    ∀ (fuel i j : Nat), alo ≤ i → runLenF a b alo blo fuel i j ≤ i + 1 - alo := by
  intro fuel
  induction fuel with
  | zero => intro i j h; simp only [runLenF]; omega
  | succ f ih =>
    intro i j h
    cases ha : a.get? i with
    | none => simp only [runLenF, ha]; omega
    | some x =>
      cases hb : b.get? j with
      | none => simp only [runLenF, ha, hb]; omega
      | some y =>
        simp only [runLenF, ha, hb]
        by_cases hxy : x = y
        · rw [if_pos hxy]
          by_cases hw : alo < i ∧ blo < j
          · rw [if_pos hw]
            have := ih (i - 1) (j - 1) (by omega)
            omega
          · rw [if_neg hw]; omega
        · rw [if_neg hxy]; omega

lemma runLenF_le_right (a b : List Char) (alo blo : Nat) :
    ∀ (fuel i j : Nat), blo ≤ j → runLenF a b alo blo fuel i j ≤ j + 1 - blo := by
  intro fuel
  induction fuel with
  | zero => intro i j h; simp only [runLenF]; omega
  | succ f ih =>
    intro i j h
    cases ha : a.get? i with
    | none => simp only [runLenF, ha]; omega
    | some x =>
      cases hb : b.get? j with
      | none => simp only [runLenF, ha, hb]; omega
      | some y =>
        simp only [runLenF, ha, hb]
        by_cases hxy : x = y
        · rw [if_pos hxy]
          by_cases hw : alo < i ∧ blo < j
          · rw [if_pos hw]
            have := ih (i - 1) (j - 1) (by omega)
            omega
          · rw [if_neg hw]; omega
        · rw [if_neg hxy]; omega

/-- Every position inside the run found by `runLenF` carries equal
characters (counting `t` back from the run's end `(i, j)`). -/
lemma runLenF_back (a b : List Char) (alo blo : Nat) :
    ∀ (fuel i j t : Nat), t < runLenF a b alo blo fuel i j →
      ∃ c, a.get? (i - t) = some c ∧ b.get? (j - t) = some c := by
  intro fuel
  induction fuel with
  | zero => intro i j t ht; simp only [runLenF] at ht; omega
  | succ f ih =>
    intro i j t ht
    cases ha : a.get? i with
    | none => simp only [runLenF, ha] at ht; omega
    | some x =>
      cases hb : b.get? j with
      | none => simp only [runLenF, ha, hb] at ht; omega
      | some y =>
        simp only [runLenF, ha, hb] at ht
        by_cases hxy : x = y
        · rw [if_pos hxy] at ht
          subst hxy
          rcases Nat.eq_zero_or_pos t with ht0 | htpos
          · subst ht0
            exact ⟨x, by simpa using ha, by simpa using hb⟩
          · by_cases hw : alo < i ∧ blo < j
            · rw [if_pos hw] at ht
              have hrec := ih (i - 1) (j - 1) (t - 1) (by omega)
              rcases hrec with ⟨c, hc1, hc2⟩
              refine ⟨c, ?_, ?_⟩
              · have : i - t = i - 1 - (t - 1) := by omega
                rw [this]; exact hc1
              · have : j - t = j - 1 - (t - 1) := by omega
                rw [this]; exact hc2
            · rw [if_neg hw] at ht; omega
        · rw [if_neg hxy] at ht; omega

lemma flmStep_inv (a b : List Char) (alo ahi blo bhi i j : Nat)
    (hi : alo ≤ i) (hi2 : i < ahi) (hj : blo ≤ j) (hj2 : j < bhi)
    (best : Nat × Nat × Nat) (hbest : FlmInv a b ahi bhi alo blo best) :
    FlmInv a b ahi bhi alo blo (flmStep a b alo blo i best j) := by
  have hkl : runLen a b alo blo i j ≤ i + 1 - alo :=
    runLenF_le_left a b alo blo (i + 1) i j hi
  have hkr : runLen a b alo blo i j ≤ j + 1 - blo :=
    runLenF_le_right a b alo blo (i + 1) i j hj
  simp only [flmStep]
  by_cases hlt : best.2.2 < runLen a b alo blo i j
  · rw [if_pos hlt]
    unfold FlmInv
    dsimp only
    refine ⟨by omega, by omega, by omega, by omega, ?_⟩
    intro t htk
    have hback := runLenF_back a b alo blo (i + 1) i j
      (runLen a b alo blo i j - 1 - t) (by unfold runLen at htk ⊢; omega)
    rcases hback with ⟨c, hc1, hc2⟩
    refine ⟨c, ?_, ?_⟩
    · have : i + 1 - runLen a b alo blo i j + t =
        i - (runLen a b alo blo i j - 1 - t) := by omega
      rw [this]; exact hc1
    · have : j + 1 - runLen a b alo blo i j + t =
        j - (runLen a b alo blo i j - 1 - t) := by omega
      rw [this]; exact hc2
  · rw [if_neg hlt]; exact hbest

lemma flm_inv (a b : List Char) (alo ahi blo bhi : Nat)
    (ha : alo ≤ ahi) (hb : blo ≤ bhi) :
    FlmInv a b ahi bhi alo blo (find_longest_match a b alo ahi blo bhi) := by
  unfold find_longest_match
  apply foldl_inv
  · exact ⟨Nat.le_refl alo, Nat.le_refl blo, by simpa using ha,
      by simpa using hb, fun t ht => by simp at ht⟩
  · intro i hi best hbest
    rw [List.mem_range'_1] at hi
    unfold flmRow
    apply foldl_inv
    · exact hbest
    · intro j hj best2 hbest2
      rw [List.mem_range'_1] at hj
      exact flmStep_inv a b alo ahi blo bhi i j (by omega) (by omega)
        (by omega) (by omega) best2 hbest2

lemma foldl_flmStep_k_mono (a b : List Char) (alo blo i : Nat) :
    ∀ (l : List Nat) (best : Nat × Nat × Nat),
      best.2.2 ≤ (l.foldl (flmStep a b alo blo i) best).2.2
  | [], _ => Nat.le_refl _
  | j :: js, best => by
    have h2 := foldl_flmStep_k_mono a b alo blo i js (flmStep a b alo blo i best j)
    refine Nat.le_trans ?_ h2
    simp only [flmStep]
    split
    · next h => exact Nat.le_of_lt h
    · exact Nat.le_refl _

lemma foldl_flmStep_k_ge (a b : List Char) (alo blo i : Nat) :
    ∀ (l : List Nat) (best : Nat × Nat × Nat) (j : Nat), j ∈ l →
      runLen a b alo blo i j ≤ (l.foldl (flmStep a b alo blo i) best).2.2 := by
  intro l
  induction l with
  | nil => intro best j hj; simp at hj
  | cons j0 js ih =>
    intro best j hj
    rcases List.mem_cons.mp hj with hj0 | hjs
    · subst hj0
      refine Nat.le_trans ?_
        (foldl_flmStep_k_mono a b alo blo i js (flmStep a b alo blo i best j))
      simp only [flmStep]
      split
      · exact Nat.le_refl _
      · next h => exact Nat.le_of_not_lt h
    · exact ih (flmStep a b alo blo i best j0) j hjs

lemma foldl_flmRow_k_mono (a b : List Char) (alo blo bhi : Nat) :
    ∀ (l : List Nat) (best : Nat × Nat × Nat),
      best.2.2 ≤ (l.foldl (flmRow a b alo blo bhi) best).2.2
  | [], _ => Nat.le_refl _
  | i :: is, best => by
    have h2 := foldl_flmRow_k_mono a b alo blo bhi is (flmRow a b alo blo bhi best i)
    refine Nat.le_trans ?_ h2
    exact foldl_flmStep_k_mono a b alo blo i _ best

lemma foldl_flmRow_k_ge (a b : List Char) (alo blo bhi : Nat) :
    ∀ (l : List Nat) (best : Nat × Nat × Nat) (i j : Nat), i ∈ l →
      j ∈ List.range' blo (bhi - blo) →
      runLen a b alo blo i j ≤ (l.foldl (flmRow a b alo blo bhi) best).2.2 := by
  intro l
  induction l with
  | nil => intro best i j hi hj; simp at hi
  | cons i0 is ih =>
    intro best i j hi hj
    rcases List.mem_cons.mp hi with hi0 | his
    · subst hi0
      refine Nat.le_trans ?_
        (foldl_flmRow_k_mono a b alo blo bhi is (flmRow a b alo blo bhi best i))
      exact foldl_flmStep_k_ge a b alo blo i _ best j hj
    · exact ih (flmRow a b alo blo bhi best i0) i j his hj

lemma flm_k_ge (a b : List Char) (alo ahi blo bhi i j : Nat)
    (hi : alo ≤ i) (hi2 : i < ahi) (hj : blo ≤ j) (hj2 : j < bhi) :
    runLen a b alo blo i j ≤ (find_longest_match a b alo ahi blo bhi).2.2 := by
  unfold find_longest_match
  exact foldl_flmRow_k_ge a b alo blo bhi (List.range' alo (ahi - alo))
    (alo, blo, 0) i j (by rw [List.mem_range'_1]; omega)
    (by rw [List.mem_range'_1]; omega)

/-- On the diagonal of a list against itself, the run ending at `(i, i)` has
full length `i + 1`. -/
lemma runLenF_self_diag (a : List Char) :
    ∀ fuel i, i < a.length → i < fuel → runLenF a a 0 0 fuel i i = i + 1 := by
  intro fuel
  induction fuel with
  | zero => intro i h hf; omega
  | succ f ih =>
    intro i h hf
    obtain ⟨c, hc⟩ : ∃ c, a.get? i = some c := ⟨_, List.get?_eq_get h⟩
    simp only [runLenF, hc]
    simp only [if_true]
    rcases Nat.eq_zero_or_pos i with h0 | hpos
    · subst h0
      rw [if_neg (by omega)]
    · rw [if_pos ⟨hpos, hpos⟩, ih (i - 1) (by omega) (by omega)]
      omega

lemma runLen_self_diag (a : List Char) (i : Nat) (h : i < a.length) :
    runLen a a 0 0 i i = i + 1 :=
  runLenF_self_diag a (i + 1) i h (Nat.lt_succ_self i)

lemma flm_self (a : List Char) (hn : 0 < a.length) :
    find_longest_match a a 0 a.length 0 a.length = (0, 0, a.length) := by
  have hinv := flm_inv a a 0 a.length 0 a.length (Nat.zero_le _) (Nat.zero_le _)
  have hge := flm_k_ge a a 0 a.length 0 a.length (a.length - 1) (a.length - 1)
    (Nat.zero_le _) (by omega) (Nat.zero_le _) (by omega)
  rw [runLen_self_diag a (a.length - 1) (by omega),
    (by omega : a.length - 1 + 1 = a.length)] at hge
  rcases hm : find_longest_match a a 0 a.length 0 a.length with ⟨mi, mj, mk⟩
  rw [hm] at hinv hge
  unfold FlmInv at hinv
  simp only at hinv hge
  obtain ⟨h1, h2, h3, h4, _⟩ := hinv
  have hmi : mi = 0 := by omega
  have hmj : mj = 0 := by omega
  have hmk : mk = a.length := by omega
  rw [hmi, hmj, hmk]

lemma mbTotalF_empty_left (a b : List Char) :
    ∀ (fuel alo blo bhi : Nat), mbTotalF a b fuel alo alo blo bhi = 0 := by
  intro fuel alo blo bhi
  cases fuel with
  | zero => rfl
  | succ f =>
    simp only [mbTotalF]
    have : find_longest_match a b alo alo blo bhi = (alo, blo, 0) := by
      unfold find_longest_match
      simp
    rw [this]
    simp

lemma mbTotalF_self (a : List Char) (hn : 0 < a.length) :
    ∀ fuel, mbTotalF a a (fuel + 1) 0 a.length 0 a.length = a.length := by
  intro fuel
  simp only [mbTotalF]
  rw [flm_self a hn]
  rw [if_neg (by dsimp only; omega : ¬(0, 0, a.length).2.2 = 0)]
  rw [mbTotalF_empty_left]
  simp only [Nat.zero_add]
  rw [mbTotalF_empty_left]
  omega

/-- The matching-block total never exceeds either window width. -/
lemma mbTotalF_le (a b : List Char) :
    ∀ (fuel alo ahi blo bhi : Nat), alo ≤ ahi → blo ≤ bhi →
      mbTotalF a b fuel alo ahi blo bhi ≤ ahi - alo ∧
      mbTotalF a b fuel alo ahi blo bhi ≤ bhi - blo := by
  intro fuel
  induction fuel with
  | zero => intro alo ahi blo bhi h1 h2; simp [mbTotalF]
  | succ f ih =>
    intro alo ahi blo bhi h1 h2
    have hinv := flm_inv a b alo ahi blo bhi h1 h2
    rcases hm : find_longest_match a b alo ahi blo bhi with ⟨mi, mj, mk⟩
    rw [hm] at hinv
    unfold FlmInv at hinv
    simp only at hinv
    obtain ⟨hb1, hb2, hb3, hb4, _⟩ := hinv
    simp only [mbTotalF, hm]
    by_cases hk : mk = 0
    · rw [if_pos hk]
      exact ⟨Nat.zero_le _, Nat.zero_le _⟩
    · rw [if_neg hk]
      have hleft := ih alo mi blo mj (by omega) (by omega)
      have hright := ih (mi + mk) ahi (mj + mk) bhi (by omega) (by omega)
      omega

/-- When the matching-block total fills both windows completely, the two
windows hold the same characters position by position. -/
lemma mbTotalF_full (a b : List Char) :
    ∀ (fuel alo ahi blo bhi : Nat), alo ≤ ahi → blo ≤ bhi →
      mbTotalF a b fuel alo ahi blo bhi = ahi - alo →
      mbTotalF a b fuel alo ahi blo bhi = bhi - blo →
      ∀ t, t < ahi - alo →
        ∃ c, a.get? (alo + t) = some c ∧ b.get? (blo + t) = some c := by
  intro fuel
  induction fuel with
  | zero =>
    intro alo ahi blo bhi h1 h2 hta htb t ht
    simp only [mbTotalF] at hta
    omega
  | succ f ih =>
    intro alo ahi blo bhi h1 h2 hta htb t ht
    have hinv := flm_inv a b alo ahi blo bhi h1 h2
    rcases hm : find_longest_match a b alo ahi blo bhi with ⟨mi, mj, mk⟩
    rw [hm] at hinv
    unfold FlmInv at hinv
    simp only at hinv
    obtain ⟨hb1, hb2, hb3, hb4, hrun⟩ := hinv
    simp only [mbTotalF, hm] at hta htb
    by_cases hk : mk = 0
    · rw [if_pos hk] at hta
      omega
    · rw [if_neg hk] at hta htb
      have hleL := mbTotalF_le a b f alo mi blo mj (by omega) (by omega)
      have hleR := mbTotalF_le a b f (mi + mk) ahi (mj + mk) bhi (by omega)
        (by omega)
      have hTl1 : mbTotalF a b f alo mi blo mj = mi - alo := by omega
      have hTl2 : mbTotalF a b f alo mi blo mj = mj - blo := by omega
      have hTr1 : mbTotalF a b f (mi + mk) ahi (mj + mk) bhi =
          ahi - (mi + mk) := by omega
      have hTr2 : mbTotalF a b f (mi + mk) ahi (mj + mk) bhi =
          bhi - (mj + mk) := by omega
      by_cases hc1 : t < mi - alo
      · exact ih alo mi blo mj (by omega) (by omega) hTl1 hTl2 t hc1
      · by_cases hc2 : t < mi - alo + mk
        · obtain ⟨c, hg1, hg2⟩ := hrun (t - (mi - alo)) (by omega)
          refine ⟨c, ?_, ?_⟩
          · have he : alo + t = mi + (t - (mi - alo)) := by omega
            rw [he]; exact hg1
          · have he : blo + t = mj + (t - (mi - alo)) := by omega
            rw [he]; exact hg2
        · obtain ⟨c, hg1, hg2⟩ := ih (mi + mk) ahi (mj + mk) bhi (by omega)
            (by omega) hTr1 hTr2 (t - (mi - alo) - mk) (by omega)
          refine ⟨c, ?_, ?_⟩
          · have he : alo + t = mi + mk + (t - (mi - alo) - mk) := by omega
            rw [he]; exact hg1
          · have he : blo + t = mj + mk + (t - (mi - alo) - mk) := by omega
            rw [he]; exact hg2

lemma mbTotal_le (a b : List Char) :
    mbTotal a b ≤ a.length ∧ mbTotal a b ≤ b.length := by
  have := mbTotalF_le a b (a.length + b.length + 1) 0 a.length 0 b.length
    (Nat.zero_le _) (Nat.zero_le _)
  unfold mbTotal
  omega

lemma ratioQ_nonneg (a b : List Char) : 0 ≤ ratioQ a b := by
  unfold ratioQ
  split
  · norm_num
  · positivity

lemma ratioQ_le_one (a b : List Char) : ratioQ a b ≤ 1 := by
  unfold ratioQ
  split
  · norm_num
  · next h0 =>
    have hpos : (0 : ℚ) < (a.length : ℚ) + (b.length : ℚ) := by
      have := Nat.pos_of_ne_zero h0
      exact_mod_cast this
    rw [div_le_one hpos]
    have hle := mbTotal_le a b
    have h2 : 2 * mbTotal a b ≤ a.length + b.length := by omega
    exact_mod_cast h2

lemma ratioQ_eq_one_iff (a b : List Char) : ratioQ a b = 1 ↔ a = b := by
  unfold ratioQ
  by_cases h0 : a.length + b.length = 0
  · rw [if_pos h0]
    have ha : a = [] := List.length_eq_zero.mp (by omega)
    have hb : b = [] := List.length_eq_zero.mp (by omega)
    subst ha; subst hb
    simp
  · rw [if_neg h0]
    have hcast : ((a.length + b.length : Nat) : ℚ) ≠ 0 := Nat.cast_ne_zero.mpr h0
    have hden : (a.length + b.length : ℚ) ≠ 0 := by push_cast at hcast ⊢; exact hcast
    constructor
    · intro h
      rw [div_eq_one_iff_eq hden] at h
      have hM : 2 * mbTotal a b = a.length + b.length := by exact_mod_cast h
      have hle := mbTotal_le a b
      have hMa : mbTotal a b = a.length := by omega
      have hMb : mbTotal a b = b.length := by omega
      have hlen : a.length = b.length := by omega
      apply List.ext
      intro n
      by_cases hn : n < a.length
      · obtain ⟨c, hg1, hg2⟩ := mbTotalF_full a b (a.length + b.length + 1)
          0 a.length 0 b.length (Nat.zero_le _) (Nat.zero_le _)
          (by unfold mbTotal at hMa; omega) (by unfold mbTotal at hMb; omega)
          n (by omega)
        simp only [Nat.zero_add] at hg1 hg2
        rw [hg1, hg2]
      · rw [List.get?_eq_none.mpr (by omega), List.get?_eq_none.mpr (by omega)]
    · intro h
      subst h
      rcases Nat.eq_zero_or_pos a.length with hz | hpos
      · omega
      · rw [div_eq_one_iff_eq hden]
        unfold mbTotal
        rw [mbTotalF_self a hpos (a.length + a.length)]
        ring

/-- C5, counterexample: `SequenceMatcher.ratio` is not symmetric — with the
4-letter titles `tide` and `diet`, the forward direction finds only the
single block `t` (ratio 1/4) while the reverse finds `d` and `e`
(ratio 1/2). -/
theorem c5_counterexample :
    similarity "tide" "diet" = 1 / 4 ∧ similarity "diet" "tide" = 1 / 2 ∧
    similarity "tide" "diet" ≠ similarity "diet" "tide" := by
  have h1 : mbTotal (lowerStr "tide") (lowerStr "diet") = 1 := by decide
  have h2 : mbTotal (lowerStr "diet") (lowerStr "tide") = 2 := by decide
  have hl1 : (lowerStr "tide").length = 4 := by decide
  have hl2 : (lowerStr "diet").length = 4 := by decide
  have e1 : similarity "tide" "diet" = 1 / 4 := by
    unfold similarity ratioQ
    rw [h1, hl1, hl2]
    norm_num
  have e2 : similarity "diet" "tide" = 1 / 2 := by
    unfold similarity ratioQ
    rw [h2, hl1, hl2]
    norm_num
  refine ⟨e1, e2, ?_⟩
  rw [e1, e2]
  norm_num

/-- C5, amended: for all title strings, `similarity` lies in `[0, 1]` and
equals `1` exactly when the two titles are identical after case-folding;
but it is not symmetric in general (see the counterexample). -/
theorem c5_similarity_properties (t1 t2 : String) :
    0 ≤ similarity t1 t2 ∧ similarity t1 t2 ≤ 1 ∧
    (similarity t1 t2 = 1 ↔ lowerStr t1 = lowerStr t2) :=
  ⟨ratioQ_nonneg (lowerStr t1) (lowerStr t2),
   ratioQ_le_one (lowerStr t1) (lowerStr t2),
   ratioQ_eq_one_iff (lowerStr t1) (lowerStr t2)⟩

/-- C6: the owner-resolution chain.  When the body contains a
cross-repository issue link and that link's fetch answers 200, the linked
issue's author is returned; when the fetch fails (transport error or
non-200), the first `@mention` in raw text order is returned instead of
raising; with neither link nor mention the issue's own `user.login` is
returned. -/
theorem c6_owner_resolution (fetch : OwnerFetch) (issue : Issue) :
    (∀ l ls g u, findLinks (rawBody issue) = l :: ls →
      searchIssueRef l = some g →
      fetch g.1 g.2.1 g.2.2 = Except.ok (200, u) →
      find_real_owner fetch issue = u) ∧
    (∀ l ls g m ms, findLinks (rawBody issue) = l :: ls →
      searchIssueRef l = some g →
      (∀ u, fetch g.1 g.2.1 g.2.2 ≠ Except.ok (200, u)) →
      findMentions (rawBody issue) = m :: ms →
      find_real_owner fetch issue = String.mk m) ∧
    (findLinks (rawBody issue) = [] → findMentions (rawBody issue) = [] →
      find_real_owner fetch issue = issue.user) := by
  refine ⟨?_, ?_, ?_⟩
  · intro l ls g u hl hg hf
    simp only [find_real_owner, hl, get_original_issue_owner, hg, hf]
  · intro l ls g m ms hl hg hf hm
    have hnone :
        (match fetch g.1 g.2.1 g.2.2 with
          | Except.ok (200, login) => some login
          | _ => none) = (none : Option String) := by
      cases hfv : fetch g.1 g.2.1 g.2.2 with
      | error e => rfl
      | ok p =>
        rcases p with ⟨status, login⟩
        by_cases hs : status = 200
        · subst hs; exact absurd hfv (hf login)
        · split
          · next u heq =>
            rw [Except.ok.injEq, Prod.mk.injEq] at heq
            exact absurd heq.1 hs
          · rfl
    simp only [find_real_owner, hl, get_original_issue_owner, hg, hnone,
      find_real_issue_owner, hm]
  · intro hl hm
    simp only [find_real_owner, hl, find_real_issue_owner, hm]

/-- C6 witness: a concrete body with a github issue link and a mention; a
fetch answering 404 lets resolution fall through to the mention `alice`. -/
theorem c6_owner_resolution_witness :
    find_real_owner (fun _ _ _ => Except.ok (404, "carol"))
      { number := 3, title := "t", user := "bob", htmlUrl := "h",
        createdAt := "c", isPull := false,
        body := some "see https://github.com/org/repo/issues/42 thanks @alice" } =
      "alice" := by
  exact
    (c6_owner_resolution (fun _ _ _ => Except.ok (404, "carol"))
          { number := 3, title := "t", user := "bob", htmlUrl := "h",
            createdAt := "c", isPull := false,
            body :=
              some "see https://github.com/org/repo/issues/42 thanks @alice" }).2.1
      "https://github.com/org/repo/issues/42".toList []
      ("org".toList, "repo".toList, "42".toList) "alice".toList []
      (by rfl) (by rfl)
      (fun u h => by
        rw [Except.ok.injEq, Prod.mk.injEq] at h
        exact absurd h.1 (by decide))
      (by rfl)

/-- C9: owner resolution consults only the first link of the body.  The
result is unchanged under any modification of the fetch oracle away from
the first link's reference (so later links are never tried), and when the
first link's fetch fails, resolution falls directly through to the
mention-then-author fallback even though further links exist. -/
theorem c9_first_link_only (issue : Issue) :
    (∀ (fetch fetch2 : OwnerFetch) l1 ls, findLinks (rawBody issue) = l1 :: ls →
      (∀ g, searchIssueRef l1 = some g →
        fetch g.1 g.2.1 g.2.2 = fetch2 g.1 g.2.1 g.2.2) →
      find_real_owner fetch issue = find_real_owner fetch2 issue) ∧
    (∀ (fetch : OwnerFetch) l1 l2 ls g,
      findLinks (rawBody issue) = l1 :: l2 :: ls →
      searchIssueRef l1 = some g →
      (∀ u, fetch g.1 g.2.1 g.2.2 ≠ Except.ok (200, u)) →
      find_real_owner fetch issue =
        (match findMentions (rawBody issue) with
         | m :: _ => String.mk m
         | [] => issue.user)) := by
  constructor
  · intro fetch fetch2 l1 ls hl hagree
    simp only [find_real_owner, hl, get_original_issue_owner]
    cases hg : searchIssueRef l1 with
    | none => rfl
    | some g =>
      have hag := hagree g hg
      simp only [hg, hag]
  · intro fetch l1 l2 ls g hl hg hf
    have hnone :
        (match fetch g.1 g.2.1 g.2.2 with
          | Except.ok (200, login) => some login
          | _ => none) = (none : Option String) := by
      cases hfv : fetch g.1 g.2.1 g.2.2 with
      | error e => rfl
      | ok p =>
        rcases p with ⟨status, login⟩
        by_cases hs : status = 200
        · subst hs; exact absurd hfv (hf login)
        · split
          · next u heq =>
            rw [Except.ok.injEq, Prod.mk.injEq] at heq
            exact absurd heq.1 hs
          · rfl
    simp only [find_real_owner, hl, get_original_issue_owner, hg, hnone,
      find_real_issue_owner]
    cases findMentions (rawBody issue) with
    | nil => rfl
    | cons m ms => rfl

/-- C9 witness: a body with two links; the first link's fetch fails with a
transport error, later links are irrelevant, and resolution falls through
to the mention `bob`. -/
theorem c9_first_link_only_witness :
    find_real_owner (fun _ _ _ => Except.error "timeout")
      { number := 4, title := "t", user := "zoe", htmlUrl := "h",
        createdAt := "c", isPull := false,
        body := some
          "x https://github.com/a/b/issues/7 y https://github.com/c/d/issues/9 @bob" } =
      "bob" := by
  have h :=
    (c9_first_link_only
        { number := 4, title := "t", user := "zoe", htmlUrl := "h",
          createdAt := "c", isPull := false,
          body := some
            "x https://github.com/a/b/issues/7 y https://github.com/c/d/issues/9 @bob" }).2
      (fun _ _ _ => Except.error "timeout")
      "https://github.com/a/b/issues/7".toList
      "https://github.com/c/d/issues/9".toList []
      ("a".toList, "b".toList, "7".toList)
      (by rfl) (by rfl) (fun u h => Except.noConfusion h)
  rw [h]
  rfl

/-- C1, counterexample: in a pass where the matching issue `r/a#1` fails to
mirror (transport error on the POST), the pass continues — the later
non-matching issue `r/a#2` is still evaluated and recorded — but `r/a#1` is
NOT added to the processed set, refuting "that issue's identifier is still
added to the processed set". -/
theorem c1_counterexample :
    monitor_repositories wC1 cfgC1 filesC1 =
      Except.ok (⟨CkptFile.parsed (some 1000), ["r/a#2"]⟩,
        [Ev.fetch "r/a", Ev.createFail "r/a#1", Ev.writeProcessed,
         Ev.writeCheckpoint 1000]) ∧
    "r/a#1" ∉ ["r/a#2"] := by
  exact ⟨by rfl, by decide⟩

/-- C1, amended: when the create-issue call fails for a matching, unseen
issue, the pass continues with the remaining issues, but that issue's
identifier is NOT added to the processed set (only successfully mirrored
and non-matching issues are recorded). -/
theorem c1_failed_create_not_processed (w : World) (cfg : Config)
    (repo : String) (st : PassSt) (issue : Issue)
    (hmem : issueKey repo issue ∉ st.processed)
    (hmatch : matches_criteria cfg issue = true)
    (hfail : create_issue_in_target_repo w cfg issue repo = none) :
    (evalIssue w cfg repo st issue).processed = st.processed ∧
    ∀ rest, processIssues w cfg repo st (issue :: rest) =
      processIssues w cfg repo (evalIssue w cfg repo st issue) rest := by
  constructor
  · simp only [evalIssue, if_neg hmem, if_pos hmatch, hfail]
  · intro rest
    rfl

/-- C1 witness: `c1_failed_create_not_processed` applied to the concrete
scenario of the counterexample world. -/
theorem c1_failed_create_not_processed_witness :
    (evalIssue wC1 cfgC1 "r/a" ⟨[], []⟩ issueA).processed = [] := by
  exact (c1_failed_create_not_processed wC1 cfgC1 "r/a" ⟨[], []⟩ issueA
    (by decide) (by decide) (by rfl)).1

/-! ### Write-event discipline of a pass -/

lemma evalIssue_writeFree (w : World) (cfg : Config) (repo : String)
    (st : PassSt) (issue : Issue)
    (h : ∀ e ∈ st.events, isWriteEv e = false) :
    ∀ e ∈ (evalIssue w cfg repo st issue).events, isWriteEv e = false := by
  intro e he
  simp only [evalIssue] at he
  split at he
  · exact h e he
  · split at he
    · split at he
      · simp only [List.mem_append, List.mem_cons, List.not_mem_nil,
          or_false] at he
        rcases he with he | he | he
        · exact h e he
        · subst he; rfl
        · subst he; rfl
      · simp only [List.mem_append, List.mem_cons, List.not_mem_nil,
          or_false] at he
        rcases he with he | he
        · exact h e he
        · subst he; rfl
    · exact h e he

lemma processIssues_writeFree (w : World) (cfg : Config) (repo : String) :
    ∀ (issues : List Issue) (st : PassSt),
      (∀ e ∈ st.events, isWriteEv e = false) →
      ∀ e ∈ (processIssues w cfg repo st issues).events, isWriteEv e = false := by
  intro issues
  induction issues with
  | nil => intro st h; exact h
  | cons i is ih =>
    intro st h
    exact ih (evalIssue w cfg repo st i) (evalIssue_writeFree w cfg repo st i h)

lemma processRepo_writeFree (w : World) (cfg : Config) (since : Option Int)
    (st : PassSt) (repo : String)
    (h : ∀ e ∈ st.events, isWriteEv e = false) :
    ∀ e ∈ (processRepo w cfg since st repo).events, isWriteEv e = false := by
  unfold processRepo
  apply processIssues_writeFree
  intro e he
  simp only [List.mem_append, List.mem_cons, List.not_mem_nil, or_false] at he
  rcases he with he | he
  · exact h e he
  · subst he; rfl

lemma foldl_processRepo_writeFree (w : World) (cfg : Config)
    (since : Option Int) :
    ∀ (repos : List String) (st : PassSt),
      (∀ e ∈ st.events, isWriteEv e = false) →
      ∀ e ∈ (repos.foldl (processRepo w cfg since) st).events,
        isWriteEv e = false := by
  intro repos
  induction repos with
  | nil => intro st h; exact h
  | cons r rs ih =>
    intro st h
    exact ih (processRepo w cfg since st r)
      (processRepo_writeFree w cfg since st r h)

/-- C4, counterexample: a pass that aborts at the rate gate (50 < 100
remaining) terminates with NO write at all — the checkpoint file is not
written exactly once in that pass, refuting "in every pass, the checkpoint
file is written exactly once". -/
theorem c4_counterexample :
    monitor_repositories wC4 cfgC4 filesC4 = Except.ok (filesC4, []) ∧
    Ev.writeCheckpoint wC4.now ∉ ([] : List Ev) ∧
    Ev.writeProcessed ∉ ([] : List Ev) := by
  exact ⟨by rfl, by decide, by decide⟩

/-- C4, amended: in every pass that passes the rate gate (the rate-limit
call answers and reports at least 100 remaining), the checkpoint file is
written exactly once, as the last side effect of the pass, immediately
after the processed-set write and after all other (non-write) events; and
provided the clock did not run backwards, the persisted checkpoint
timestamp after the pass is ≥ the one before it. -/
theorem c4_checkpoint_discipline (w : World) (cfg : Config) (files : Files)
    (r : Nat) (hrate : check_rate_limit w.rateResp = Except.ok r)
    (h100 : 100 ≤ r) :
    ∃ files2 pre,
      monitor_repositories w cfg files =
        Except.ok (files2,
          pre ++ [Ev.writeProcessed, Ev.writeCheckpoint w.now]) ∧
      (∀ e ∈ pre, isWriteEv e = false) ∧
      files2.ckpt = CkptFile.parsed (some w.now) ∧
      (∀ old, files.ckpt = CkptFile.parsed (some old) → old ≤ w.now →
        ∃ newT, files2.ckpt = CkptFile.parsed (some newT) ∧ old ≤ newT) := by
  refine ⟨{ ckpt := save_last_check_time w.now,
            processedFile :=
              (cfg.monitoredRepos.foldl
                (processRepo w cfg (get_last_check_time files.ckpt w.now))
                ⟨files.processedFile, []⟩).processed },
    (cfg.monitoredRepos.foldl
      (processRepo w cfg (get_last_check_time files.ckpt w.now))
      ⟨files.processedFile, []⟩).events, ?_, ?_, rfl, ?_⟩
  · simp only [monitor_repositories, hrate]
    rw [if_neg (by omega)]
  · exact foldl_processRepo_writeFree w cfg
      (get_last_check_time files.ckpt w.now) cfg.monitoredRepos
      ⟨files.processedFile, []⟩ (fun e he => by simp at he)
  · intro old hold hle
    exact ⟨w.now, rfl, hle⟩

/-- C4 witness: `c4_checkpoint_discipline` at the concrete rate-rich world:
the pass ends with exactly the processed-set write followed by the
checkpoint write. -/
theorem c4_checkpoint_discipline_witness :
    ∃ files2 pre,
      monitor_repositories wC4ok cfgC4 filesC4 =
        Except.ok (files2,
          pre ++ [Ev.writeProcessed, Ev.writeCheckpoint wC4ok.now]) ∧
      (∀ e ∈ pre, isWriteEv e = false) ∧
      files2.ckpt = CkptFile.parsed (some wC4ok.now) ∧
      (∀ old, filesC4.ckpt = CkptFile.parsed (some old) → old ≤ wC4ok.now →
        ∃ newT, files2.ckpt = CkptFile.parsed (some newT) ∧ old ≤ newT) := by
  exact c4_checkpoint_discipline wC4ok cfgC4 filesC4 5000 (by rfl) (by decide)

end CryptoMonitor
